import Mathlib

/-!
Verification of the ordering and drag-reconciliation engine of the job board.

Order keys are strings over the fixed base-62 alphabet
"0123456789ABCDEFGHIJKLMNOPQRSTUVWXYZabcdefghijklmnopqrstuvwxyz",
compared byte-wise.  Since the alphabet is listed in ascending ASCII order,
byte-wise comparison of such strings coincides with lexicographic comparison
of the lists of digit values (the positions 0..61 of the characters in the
alphabet).  We therefore represent an order key as a `List Nat` of digit
values; `strLt` below is exactly the byte-wise `<` of JavaScript restricted
to such strings.
-/

namespace GetAJob

/-- An order key: the list of base-62 digit values of its characters.
Digit 0 is the character 0, digit 36 is a, digit 37 is b, digit 61 is z. -/
abbrev Key := List Nat

/-- Byte-wise (lexicographic) strict comparison of order keys, mirroring the
JavaScript string comparison `a < b` used throughout the source. -/
def strLt : Key → Key → Bool
  | [], [] => false
  | [], _ :: _ => true
  | _ :: _, [] => false
  | a :: as, b :: bs => decide (a < b) || (decide (a = b) && strLt as bs)

/-- A well-formed order key: non-empty, every digit is a base-62 digit, and
the final digit is not the minimal digit 0 (so that some key sorts strictly
below it and key generation below it can continue indefinitely). -/
def ValidKey (k : Key) : Prop :=
  k ≠ [] ∧ (∀ d ∈ k, d ≤ 61) ∧ k.getLast? ≠ some 0

instance : DecidablePred ValidKey := by
  intro k
  unfold ValidKey
  infer_instance

/-- Modelled from the spec: the repository imports `generateKeyBetween` from the
external fractional-indexing library, whose source is not part of this
repository.  `keyBelow b` produces a key that sorts strictly before `b`
(the `before = null` case of the section 4.1 contract): it decrements the
first possible digit, taking care never to produce a key that exhausts the
space below it while descending. -/
def keyBelow : Key → Key
  | [] => []
  | d :: bs =>
    if d = 0 then (if bs = [] then [] else 0 :: keyBelow bs)
    else if d = 1 then [0, 61]
    else [d - 1]

/-- Modelled from the spec: `keyAbove a` produces a key that sorts strictly
after `a` (the `after = null` case of the section 4.1 contract). -/
def keyAbove : Key → Key
  | [] => [36]
  | d :: bs => if d = 61 then 61 :: keyAbove bs else [d + 1]

/-- Modelled from the spec: a key strictly between two keys `a < b`
(both bounds present).  Shared digits are kept; at the first difference a
digit midpoint is taken when the gap allows it, otherwise the key grows by
one position. -/
def keyMid : Key → Key → Except String Key
  | _, [] => .error "keyMid: no upper bound"
  | [], b :: bs =>
    if keyBelow (b :: bs) = [] then .error "keyMid: no key strictly between"
    else .ok (keyBelow (b :: bs))
  | da :: as, db :: bs =>
    if da = db then (keyMid as bs).map (fun k => da :: k)
    else if da + 2 ≤ db then .ok [(da + db) / 2]
    else if db = da + 1 then .ok (da :: keyAbove as)
    else .error "keyMid: bounds not ordered"

/-- Modelled from the spec: the generator contract of section 4.1.
`none` stands for an absent bound.  Both bounds absent yields the fixed
default key (digit 36, the character a); inverted or equal bounds are a
caller error. -/
def generateKeyBetween : Option Key → Option Key → Except String Key
  | none, none => .ok [36]
  | none, some b => if b = [] then .error "no key sorts before the empty key" else .ok (keyBelow b)
  | some a, none => .ok (keyAbove a)
  | some a, some b => if strLt a b then keyMid a b else .error "bounds not ordered"

/-- Embeds `calculateOrderBetween` of src/lib/fractional-index.ts. -/
def calculateOrderBetween (before after : Option Key) : Except String Key :=
  generateKeyBetween before after

/-- Embeds `calculateOrderAtStart` of src/lib/fractional-index.ts. -/
def calculateOrderAtStart (firstItem : Option Key) : Except String Key :=
  generateKeyBetween none firstItem

/-- Embeds `calculateOrderAtEnd` of src/lib/fractional-index.ts. -/
def calculateOrderAtEnd (lastItem : Option Key) : Except String Key :=
  generateKeyBetween lastItem none

/-- The sequence of keys produced by repeatedly calling `calculateOrderAtStart`,
starting from `null` and each time feeding back the key produced by the
previous call.  The sequence is a pure function of its index: every call is
deterministic, independent of wall-clock time or randomness. -/
def atStartSeq : Nat → Except String Key
  | 0 => calculateOrderAtStart none
  | n + 1 => (atStartSeq n).bind (fun k => calculateOrderAtStart (some k))

/-- The sequence of keys produced by repeatedly calling `calculateOrderAtEnd`,
starting from `null` and each time feeding back the previous key. -/
def atEndSeq : Nat → Except String Key
  | 0 => calculateOrderAtEnd none
  | n + 1 => (atEndSeq n).bind (fun k => calculateOrderAtEnd (some k))

/-- The fixed, closed set of column identifiers (`JobStatus` of the Prisma
schema).  Dropping on a column is distinguished from dropping on a card by
this type: in the source, `isColumnId` performs exactly this dispatch at
runtime, since column ids are the six status strings and card ids are
numeric job ids, which are disjoint. -/
inductive JobStatus where
  | WISHLIST
  | APPLIED
  | INTERVIEW
  | OFFER
  | ACCEPTED
  | REJECTED
deriving DecidableEq, Repr

/-- A job record as seen by the ordering engine: its id, column, order key
and creation timestamp (milliseconds, as produced by getTime). -/
structure Job where
  id : Nat
  status : JobStatus
  order : Key
  createdAt : Nat
deriving DecidableEq, Repr

/-- The total preorder realised by the comparator inside
`getSortedJobsForStatus`: the comparator returns a non-positive number on
`(a, b)` exactly when `a.order` sorts strictly before `b.order` byte-wise, or
the orders are equal and `a` was created no earlier than `b` (`createdAt`
descending tie-break). -/
def jobLe (a b : Job) : Prop :=
  strLt a.order b.order = true ∨ (a.order = b.order ∧ b.createdAt ≤ a.createdAt)

instance : DecidableRel jobLe := by
  intro a b
  unfold jobLe
  infer_instance

/-- Embeds `getSortedJobsForStatus` of the drag-and-drop helpers: filter the
list to the given status, then sort ascending by order key using byte-wise
string comparison (deliberately not locale-aware collation), breaking ties
by `createdAt` descending.  The JavaScript `Array.sort` is stable and its
comparator realises the total preorder `jobLe`, so a stable insertion sort
along `jobLe` computes the same list. -/
def getSortedJobsForStatus (status : JobStatus) (jobList : List Job) : List Job :=
  List.insertionSort jobLe (jobList.filter (fun j => decide (j.status = status)))

/-- The dragged job as passed to `calculateDropResult`: its id together with
its pre-gesture status and order key. -/
structure DraggedJob where
  id : Nat
  status : JobStatus
  order : Key
deriving DecidableEq, Repr

/-- The `overId` argument of `calculateDropResult`: either a column id or a
card (job) id.  See `JobStatus` for why this dispatch is faithful to the
runtime `isColumnId` check of the source. -/
inductive DropTarget where
  | column (status : JobStatus)
  | card (id : Nat)
deriving DecidableEq, Repr

/-- Embeds the `DropResult` interface of the drag-and-drop helpers. -/
structure DropResult where
  targetStatus : JobStatus
  newOrder : Key
  statusChanged : Bool
  orderChanged : Bool
deriving DecidableEq, Repr

/-- The sorted target column with the dragged job filtered out, as computed
inside `calculateDropResult`. -/
def columnJobsWithoutActive (jobId : Nat) (status : JobStatus) (jobs : List Job) : List Job :=
  (getSortedJobsForStatus status jobs).filter (fun j => decide (j.id ≠ jobId))

/-- Embeds the new-order computation of `calculateDropResult` (the final
if/else chain): empty column, insert at start, insert at end, or insert
between two items with the degenerate-keys fallback.  The between-branch is
only reached when `0 < i < l.length`, so the list accesses below are always
in bounds and the `getD` defaults are never used. -/
def computeNewOrder (l : List Job) (i : Nat) : Except String Key :=
  match l with
  | [] => calculateOrderBetween none none
  | j0 :: rest =>
    if i = 0 then calculateOrderAtStart (some j0.order)
    else if (j0 :: rest).length ≤ i then
      calculateOrderAtEnd (some (rest.getLastD j0).order)
    else
      let beforeJob := (j0 :: rest).getD (i - 1) j0
      let afterJob := (j0 :: rest).getD i j0
      if strLt beforeJob.order afterJob.order then
        calculateOrderBetween (some beforeJob.order) (some afterJob.order)
      else
        calculateOrderAtStart (some afterJob.order)

/-- The key produced when inserting at the end of the (already filtered)
column `l`: the default key on an empty column, otherwise a key above the
last entry.  This is the value `computeNewOrder l l.length` computes. -/
def endOrderKey : List Job → Key
  | [] => [36]
  | j0 :: rest => keyAbove (rest.getLastD j0).order

/-- The target index for a drop on a card: the cards position in the filtered
column, defaulting to the end of the list when the card is not found there
(the findIndex result -1 arm of the source). -/
def resolveCardIndex (l : List Job) (overJobId : Nat) : Nat :=
  match l.findIdx? (fun j => decide (j.id = overJobId)) with
  | none => l.length
  | some idx => idx

/-- Embeds `calculateDropResult` of the drag-and-drop helpers.  A `.ok none`
models the functions null return (drop target not found); an `.error`
models an exception thrown by the key generator. -/
def calculateDropResult (job : DraggedJob) (overId : DropTarget) (jobs : List Job) :
    Except String (Option DropResult) :=
  match overId with
  | .column s =>
    let l := columnJobsWithoutActive job.id s jobs
    (computeNewOrder l l.length).map (fun newOrder =>
      some { targetStatus := s, newOrder := newOrder,
             statusChanged := decide (job.status ≠ s),
             orderChanged := decide (job.order ≠ newOrder) })
  | .card overJobId =>
    match jobs.find? (fun j => decide (j.id = overJobId)) with
    | none => .ok none
    | some overJob =>
      let l := columnJobsWithoutActive job.id overJob.status jobs
      (computeNewOrder l (resolveCardIndex l overJobId)).map (fun newOrder =>
        some { targetStatus := overJob.status, newOrder := newOrder,
               statusChanged := decide (job.status ≠ overJob.status),
               orderChanged := decide (job.order ≠ newOrder) })

/-- Observable outcome of the commit phase of `handleDragEnd`: the final jobs
list, how many persistence requests were issued, and whether a failure
notice (error toast) was shown to the user. -/
structure DragCommitOutcome where
  jobs : List Job
  persistAttempts : Nat
  failureNoticeShown : Bool
deriving DecidableEq, Repr

/-- Embeds the commit phase of `handleDragEnd`: the optimistic local update,
one persistence request, and on failure the revert of the moved record to
the original (pre-gesture snapshot) status and order together with an error
toast.  No retry is issued in either case. -/
def commitDrag (jobs : List Job) (jobId : Nat) (targetStatus : JobStatus) (newOrder : Key)
    (originalStatus : JobStatus) (originalOrder : Key) (persistSucceeds : Bool) :
    DragCommitOutcome :=
  let optimistic := jobs.map (fun j =>
    if j.id = jobId then { j with status := targetStatus, order := newOrder } else j)
  if persistSucceeds then
    { jobs := optimistic, persistAttempts := 1, failureNoticeShown := false }
  else
    { jobs := optimistic.map (fun j =>
        if j.id = jobId then { j with status := originalStatus, order := originalOrder } else j),
      persistAttempts := 1, failureNoticeShown := true }

/-- Scenario data: a single WISHLIST record, so that the APPLIED column is
empty; the record is dragged onto the APPLIED column background. -/
def c4job : DraggedJob := { id := 1, status := .WISHLIST, order := [37] }

/-- Scenario data for the empty-APPLIED-column drop. -/
def c4jobs : List Job := [{ id := 1, status := .WISHLIST, order := [37], createdAt := 5 }]

/-- Scenario data: a WISHLIST column holding keys a, b, c (digits 36, 37, 38);
the middle record (id 1) is the dragged one. -/
def c5job : DraggedJob := { id := 1, status := .WISHLIST, order := [37] }

/-- Scenario data for the self-drop: the dragged record id 1 sits between its
siblings id 2 and id 3 in the WISHLIST column. -/
def c5jobs : List Job :=
  [ { id := 2, status := .WISHLIST, order := [36], createdAt := 30 },
    { id := 1, status := .WISHLIST, order := [37], createdAt := 20 },
    { id := 3, status := .WISHLIST, order := [38], createdAt := 10 } ]

/-- Scenario data: an APPLIED record dragged between two WISHLIST records that
both carry the degenerate legacy key 0 (digit list [0]). -/
def c6job : DraggedJob := { id := 1, status := .APPLIED, order := [36] }

/-- Scenario data for the degenerate-key drop: ids 2 and 3 share the key 0;
the tie-break (createdAt descending) sorts id 2 before id 3. -/
def c6jobs : List Job :=
  [ { id := 1, status := .APPLIED, order := [36], createdAt := 50 },
    { id := 2, status := .WISHLIST, order := [0], createdAt := 10 },
    { id := 3, status := .WISHLIST, order := [0], createdAt := 5 } ]

/-- Scenario data: WISHLIST record dragged onto the card with key b5 in an
APPLIED column holding keys b0 and b5 ([37, 0] and [37, 5]). -/
def c9job : DraggedJob := { id := 1, status := .WISHLIST, order := [36] }

/-- Scenario data for the drop onto the last APPLIED card. -/
def c9jobs : List Job :=
  [ { id := 1, status := .WISHLIST, order := [36], createdAt := 9 },
    { id := 2, status := .APPLIED, order := [37, 0], createdAt := 5 },
    { id := 3, status := .APPLIED, order := [37, 5], createdAt := 4 } ]

/-- Counterexample data for the direction rule: WISHLIST holds keys with
digits [36], [40], [50]; the middle record (id 1) is dragged onto the last
card (id 3), a move whose source position precedes the target sibling. -/
def c2job : DraggedJob := { id := 1, status := .WISHLIST, order := [40] }

/-- Counterexample data: the WISHLIST column for the within-column drop of
record id 1 onto record id 3. -/
def c2jobs : List Job :=
  [ { id := 2, status := .WISHLIST, order := [36], createdAt := 30 },
    { id := 1, status := .WISHLIST, order := [40], createdAt := 20 },
    { id := 3, status := .WISHLIST, order := [50], createdAt := 10 } ]

/-- Witness data: record id 1 dropped onto its own card id in a two-record
APPLIED column. -/
def c10job : DraggedJob := { id := 1, status := .APPLIED, order := [36] }

/-- Witness data for the self-drop resolution. -/
def c10jobs : List Job :=
  [ { id := 1, status := .APPLIED, order := [36], createdAt := 9 },
    { id := 2, status := .APPLIED, order := [37], createdAt := 5 } ]

/-- Witness data: a two-record board for the failed-persist rollback. -/
def c7jobs : List Job :=
  [ { id := 1, status := .WISHLIST, order := [36], createdAt := 3 },
    { id := 2, status := .APPLIED, order := [37], createdAt := 4 } ]

theorem strLt_nil_right : ∀ a : Key, strLt a [] = false := by
  intro a
  cases a <;> rfl

theorem strLt_irrefl : ∀ a : Key, strLt a a = false := by
  intro a
  induction a with
  | nil => rfl
  | cons d as ih => simp [strLt, ih]

theorem strLt_ne {a b : Key} (h : strLt a b = true) : a ≠ b := by
  intro he
  subst he
  rw [strLt_irrefl] at h
  exact Bool.false_ne_true h

theorem strLt_trans : ∀ a b c : Key, strLt a b = true → strLt b c = true → strLt a c = true := by
  intro a
  induction a with
  | nil =>
    intro b c hab hbc
    cases b with
    | nil => simp [strLt] at hab
    | cons y bs =>
      cases c with
      | nil => simp [strLt] at hbc
      | cons z cs => simp [strLt]
  | cons x as ih =>
    intro b c hab hbc
    cases b with
    | nil => simp [strLt] at hab
    | cons y bs =>
      cases c with
      | nil => simp [strLt] at hbc
      | cons z cs =>
        simp only [strLt, Bool.or_eq_true, Bool.and_eq_true, decide_eq_true_eq] at hab hbc ⊢
        rcases hab with hxy | ⟨hxy, hab⟩
        · rcases hbc with hyz | ⟨hyz, _⟩
          · exact Or.inl (Nat.lt_trans hxy hyz)
          · exact Or.inl (hyz ▸ hxy)
        · rcases hbc with hyz | ⟨hyz, hbc⟩
          · exact Or.inl (hxy ▸ hyz)
          · exact Or.inr ⟨hxy.trans hyz, ih bs cs hab hbc⟩

theorem strLt_total : ∀ a b : Key, strLt a b = true ∨ a = b ∨ strLt b a = true := by
  intro a
  induction a with
  | nil =>
    intro b
    cases b with
    | nil => exact Or.inr (Or.inl rfl)
    | cons y bs => exact Or.inl (by simp [strLt])
  | cons x as ih =>
    intro b
    cases b with
    | nil => exact Or.inr (Or.inr (by simp [strLt]))
    | cons y bs =>
      rcases Nat.lt_trichotomy x y with hxy | hxy | hxy
      · exact Or.inl (by simp [strLt, hxy])
      · subst hxy
        rcases ih bs with h | h | h
        · exact Or.inl (by simp [strLt, h])
        · exact Or.inr (Or.inl (by rw [h]))
        · exact Or.inr (Or.inr (by simp [strLt, h]))
      · exact Or.inr (Or.inr (by simp [strLt, hxy]))

theorem keyAbove_gt : ∀ a : Key, strLt a (keyAbove a) = true := by
  intro a
  induction a with
  | nil => rfl
  | cons d as ih =>
    by_cases h : d = 61
    · subst h
      simp [keyAbove, strLt, ih]
    · simp [keyAbove, h, strLt, Nat.lt_succ_self]

theorem keyBelow_lt : ∀ b : Key, b ≠ [] → strLt (keyBelow b) b = true := by
  intro b
  induction b with
  | nil => intro h; exact absurd rfl h
  | cons d bs ih =>
    intro _
    by_cases h0 : d = 0
    · subst h0
      by_cases hbs : bs = []
      · subst hbs; rfl
      · simp only [keyBelow, if_pos rfl, if_neg hbs]
        simp [strLt, ih hbs]
    · by_cases h1 : d = 1
      · subst h1
        simp [keyBelow, strLt]
      · have h2 : ¬ d = 0 := h0
        simp only [keyBelow, if_neg h2, if_neg h1]
        have hd : 0 < d := Nat.pos_of_ne_zero h0
        simp [strLt, Nat.sub_lt hd Nat.one_pos]

theorem keyBelow_eq_nil_iff : ∀ b : Key, keyBelow b = [] ↔ (b = [] ∨ b = [0]) := by
  intro b
  cases b with
  | nil => simp [keyBelow]
  | cons d bs =>
    by_cases h0 : d = 0
    · subst h0
      by_cases hbs : bs = []
      · subst hbs; simp [keyBelow]
      · simp [keyBelow, hbs]
    · by_cases h1 : d = 1
      · subst h1; simp [keyBelow]
      · simp [keyBelow, h0, h1]

theorem keyBelow_valid : ∀ b : Key, ValidKey b → ValidKey (keyBelow b) := by
  intro b
  induction b with
  | nil => intro hv; exact absurd rfl hv.1
  | cons d bs ih =>
    intro hv
    obtain ⟨-, hdig, hlast⟩ := hv
    by_cases h0 : d = 0
    · subst h0
      cases bs with
      | nil => simp [List.getLast?_singleton] at hlast
      | cons c cs =>
        have hbs : ValidKey (c :: cs) := by
          refine ⟨by simp, ?_, ?_⟩
          · intro x hx; exact hdig x (List.mem_cons_of_mem _ hx)
          · rw [List.getLast?_cons_cons] at hlast; exact hlast
        obtain ⟨hne, hd2, hl2⟩ := ih hbs
        have hstep : keyBelow (0 :: c :: cs) = 0 :: keyBelow (c :: cs) := by
          rw [keyBelow]; simp
        rw [hstep]
        refine ⟨by simp, ?_, ?_⟩
        · intro x hx
          rcases List.mem_cons.mp hx with h | h
          · omega
          · exact hd2 x h
        · cases hkb : keyBelow (c :: cs) with
          | nil => exact absurd hkb hne
          | cons e es =>
            rw [hkb] at hl2
            rw [List.getLast?_cons_cons]
            exact hl2
    · by_cases h1 : d = 1
      · subst h1
        have hstep : keyBelow (1 :: bs) = [0, 61] := by
          rw [keyBelow]; simp
        rw [hstep]
        refine ⟨by simp, ?_, ?_⟩
        · intro x hx; simp at hx; omega
        · rw [List.getLast?_cons_cons, List.getLast?_singleton]
          simp
      · have hstep : keyBelow (d :: bs) = [d - 1] := by
          rw [keyBelow]; simp [h0, h1]
        rw [hstep]
        have hd : d ≤ 61 := hdig d (List.mem_cons_self _ _)
        refine ⟨by simp, ?_, ?_⟩
        · intro x hx; rw [List.mem_singleton] at hx; omega
        · rw [List.getLast?_singleton]
          simp only [ne_eq, Option.some.injEq]
          omega

theorem keyMid_ok_between :
    ∀ a b k : Key, keyMid a b = .ok k → strLt a k = true ∧ strLt k b = true := by
  intro a
  induction a with
  | nil =>
    intro b k h
    cases b with
    | nil => simp [keyMid] at h
    | cons d bs =>
      by_cases hkb : keyBelow (d :: bs) = []
      · simp [keyMid, hkb] at h
      · simp only [keyMid, if_neg hkb, Except.ok.injEq] at h
        subst h
        constructor
        · cases hk : keyBelow (d :: bs) with
          | nil => exact absurd hk hkb
          | cons e es => simp [strLt]
        · exact keyBelow_lt (d :: bs) (by simp)
  | cons da as ih =>
    intro b k h
    cases b with
    | nil => simp [keyMid] at h
    | cons db bs =>
      by_cases heq : da = db
      · subst heq
        rw [keyMid, if_pos rfl] at h
        cases hm : keyMid as bs with
        | error e => rw [hm] at h; simp [Except.map] at h
        | ok k0 =>
          rw [hm] at h
          simp only [Except.map, Except.ok.injEq] at h
          subst h
          have := ih bs k0 hm
          exact ⟨by simp [strLt, this.1], by simp [strLt, this.2]⟩
      · by_cases hgap : da + 2 ≤ db
        · rw [keyMid, if_neg heq, if_pos hgap] at h
          rw [Except.ok.injEq] at h
          subst h
          have hlo : da < (da + db) / 2 := by omega
          have hhi : (da + db) / 2 < db := by omega
          exact ⟨by simp [strLt, hlo], by simp [strLt, hhi]⟩
        · by_cases hsucc : db = da + 1
          · rw [keyMid, if_neg heq, if_neg hgap, if_pos hsucc] at h
            rw [Except.ok.injEq] at h
            subst h
            refine ⟨by simp [strLt, keyAbove_gt], ?_⟩
            simp [strLt, hsucc]
          · rw [keyMid, if_neg heq, if_neg hgap, if_neg hsucc] at h
            simp at h

theorem keyMid_isOk :
    ∀ a b : Key, strLt a b = true → b.getLast? ≠ some 0 → ∃ k, keyMid a b = .ok k := by
  intro a
  induction a with
  | nil =>
    intro b hlt hlast
    cases b with
    | nil => simp [strLt] at hlt
    | cons d bs =>
      have hkb : keyBelow (d :: bs) ≠ [] := by
        intro hnil
        rcases (keyBelow_eq_nil_iff (d :: bs)).mp hnil with h | h
        · exact absurd h (by simp)
        · rw [h] at hlast
          simp [List.getLast?_singleton] at hlast
      exact ⟨keyBelow (d :: bs), by simp [keyMid, hkb]⟩
  | cons da as ih =>
    intro b hlt hlast
    cases b with
    | nil => simp [strLt] at hlt
    | cons db bs =>
      simp only [strLt, Bool.or_eq_true, Bool.and_eq_true, decide_eq_true_eq] at hlt
      rcases hlt with hdlt | ⟨hdeq, htail⟩
      · by_cases hgap : da + 2 ≤ db
        · exact ⟨[(da + db) / 2], by simp [keyMid, Nat.ne_of_lt hdlt, hgap]⟩
        · have hsucc : db = da + 1 := by omega
          exact ⟨da :: keyAbove as, by simp [keyMid, Nat.ne_of_lt hdlt, hgap, hsucc]⟩
      · subst hdeq
        cases bs with
        | nil => rw [strLt_nil_right] at htail; exact absurd htail (by simp)
        | cons c cs =>
          have hlast2 : (c :: cs : Key).getLast? ≠ some 0 := by
            rw [List.getLast?_cons_cons] at hlast; exact hlast
          obtain ⟨k0, hk0⟩ := ih (c :: cs) htail hlast2
          exact ⟨da :: k0, by simp [keyMid, hk0, Except.map]⟩

theorem generateKeyBetween_ok_between {a b k : Key}
    (h : generateKeyBetween (some a) (some b) = .ok k) :
    strLt a k = true ∧ strLt k b = true := by
  by_cases hlt : strLt a b = true
  · rw [generateKeyBetween, if_pos hlt] at h
    exact keyMid_ok_between a b k h
  · rw [generateKeyBetween, if_neg hlt] at h
    simp at h

theorem generateKeyBetween_isOk {a b : Key} (hlt : strLt a b = true)
    (hlast : b.getLast? ≠ some 0) :
    ∃ k, generateKeyBetween (some a) (some b) = .ok k := by
  obtain ⟨k, hk⟩ := keyMid_isOk a b hlt hlast
  exact ⟨k, by rw [generateKeyBetween, if_pos hlt]; exact hk⟩

theorem calculateOrderAtStart_some {k : Key} (h : k ≠ []) :
    calculateOrderAtStart (some k) = .ok (keyBelow k) := by
  rw [calculateOrderAtStart, generateKeyBetween, if_neg h]

theorem calculateOrderAtEnd_some (k : Key) :
    calculateOrderAtEnd (some k) = .ok (keyAbove k) := rfl

theorem jobLe_trans : ∀ a b c : Job, jobLe a b → jobLe b c → jobLe a c := by
  intro a b c hab hbc
  rcases hab with hab | ⟨hab, hab2⟩
  · rcases hbc with hbc | ⟨hbc, _⟩
    · exact Or.inl (strLt_trans _ _ _ hab hbc)
    · exact Or.inl (hbc ▸ hab)
  · rcases hbc with hbc | ⟨hbc, hbc2⟩
    · exact Or.inl (hab ▸ hbc)
    · exact Or.inr ⟨hab.trans hbc, hbc2.trans hab2⟩

theorem jobLe_total : ∀ a b : Job, jobLe a b ∨ jobLe b a := by
  intro a b
  rcases strLt_total a.order b.order with h | h | h
  · exact Or.inl (Or.inl h)
  · rcases Nat.le_total b.createdAt a.createdAt with hc | hc
    · exact Or.inl (Or.inr ⟨h, hc⟩)
    · exact Or.inr (Or.inr ⟨h.symm, hc⟩)
  · exact Or.inr (Or.inl h)

theorem atStartSeq_ok_valid : ∀ n : Nat, ∃ k, atStartSeq n = .ok k ∧ ValidKey k := by
  intro n
  induction n with
  | zero => exact ⟨[36], rfl, by decide⟩
  | succ m ih =>
    obtain ⟨k, hk, hv⟩ := ih
    refine ⟨keyBelow k, ?_, keyBelow_valid k hv⟩
    rw [atStartSeq, hk]
    exact calculateOrderAtStart_some hv.1

theorem atStartSeq_lt_of_lt : ∀ i j : Nat, i < j →
    ∃ ki kj, atStartSeq i = .ok ki ∧ atStartSeq j = .ok kj ∧ strLt kj ki = true := by
  intro i j hij
  induction j with
  | zero => omega
  | succ m ih =>
    obtain ⟨km, hkm, hvm⟩ := atStartSeq_ok_valid m
    have hstep : atStartSeq (m + 1) = .ok (keyBelow km) := by
      rw [atStartSeq, hkm]
      exact calculateOrderAtStart_some hvm.1
    by_cases hi : i = m
    · subst hi
      exact ⟨km, keyBelow km, hkm, hstep, keyBelow_lt km hvm.1⟩
    · obtain ⟨ki, km2, hki, hkm2, hlt⟩ := ih (by omega)
      rw [hkm] at hkm2
      rw [Except.ok.injEq] at hkm2
      subst hkm2
      exact ⟨ki, keyBelow km, hki, hstep,
        strLt_trans _ _ _ (keyBelow_lt km hvm.1) hlt⟩

theorem atEndSeq_ok : ∀ n : Nat, ∃ k, atEndSeq n = .ok k := by
  intro n
  induction n with
  | zero => exact ⟨[36], rfl⟩
  | succ m ih =>
    obtain ⟨k, hk⟩ := ih
    refine ⟨keyAbove k, ?_⟩
    rw [atEndSeq, hk]
    exact calculateOrderAtEnd_some k

theorem atEndSeq_lt_of_lt : ∀ i j : Nat, i < j →
    ∃ ki kj, atEndSeq i = .ok ki ∧ atEndSeq j = .ok kj ∧ strLt ki kj = true := by
  intro i j hij
  induction j with
  | zero => omega
  | succ m ih =>
    obtain ⟨km, hkm⟩ := atEndSeq_ok m
    have hstep : atEndSeq (m + 1) = .ok (keyAbove km) := by
      rw [atEndSeq, hkm]
      exact calculateOrderAtEnd_some km
    by_cases hi : i = m
    · subst hi
      exact ⟨km, keyAbove km, hkm, hstep, keyAbove_gt km⟩
    · obtain ⟨ki, km2, hki, hkm2, hlt⟩ := ih (by omega)
      rw [hkm] at hkm2
      rw [Except.ok.injEq] at hkm2
      subst hkm2
      exact ⟨ki, keyAbove km, hki, hstep,
        strLt_trans _ _ _ hlt (keyAbove_gt km)⟩

/-- C1: for every pair of valid order keys a and b with a < b under byte-wise
comparison, `calculateOrderBetween a b` returns a key k with a < k and k < b;
and whenever the generator returns a key at all, that key lies strictly
between its two arguments (hence strictly between their minimum and
maximum). -/
theorem calculateOrderBetween_strictly_between :
    (∀ a b k : Key, calculateOrderBetween (some a) (some b) = .ok k →
        strLt a k = true ∧ strLt k b = true)
    ∧ (∀ a b : Key, ValidKey a → ValidKey b → strLt a b = true →
        ∃ k, calculateOrderBetween (some a) (some b) = .ok k ∧
          strLt a k = true ∧ strLt k b = true) := by
  constructor
  · intro a b k h
    rw [calculateOrderBetween] at h
    exact generateKeyBetween_ok_between h
  · intro a b _ hvb hlt
    obtain ⟨k, hk⟩ := generateKeyBetween_isOk hlt hvb.2.2
    refine ⟨k, ?_, generateKeyBetween_ok_between hk⟩
    rw [calculateOrderBetween]
    exact hk

/-- Witness for C1 at the concrete keys a = [36] and b = [37] (the characters
a and b of the alphabet). -/
theorem calculateOrderBetween_strictly_between_witness :
    ValidKey [36] ∧ ValidKey [37] ∧ strLt [36] [37] = true ∧
    (∃ k, calculateOrderBetween (some [36]) (some [37]) = .ok k ∧
      strLt [36] k = true ∧ strLt k [37] = true) :=
  ⟨by decide, by decide, by decide,
    calculateOrderBetween_strictly_between.2 [36] [37] (by decide) (by decide) (by decide)⟩

/-- C8: starting from null and feeding each generated key back in, the
sequence of keys produced by `calculateOrderAtStart` is strictly descending
under byte-wise comparison and pairwise distinct at every pair of indices
(in particular over the first 100 calls), and the sequence produced by
`calculateOrderAtEnd` is strictly ascending and pairwise distinct; both
sequences are pure functions of the call index, so every call is
deterministic, independent of wall-clock time or randomness. -/
theorem atStart_atEnd_monotone_sequences :
    (∀ i j : Nat, i < j → ∃ ki kj, atStartSeq i = .ok ki ∧ atStartSeq j = .ok kj ∧
        strLt kj ki = true ∧ kj ≠ ki)
    ∧ (∀ i j : Nat, i < j → ∃ ki kj, atEndSeq i = .ok ki ∧ atEndSeq j = .ok kj ∧
        strLt ki kj = true ∧ ki ≠ kj) := by
  constructor
  · intro i j hij
    obtain ⟨ki, kj, hki, hkj, hlt⟩ := atStartSeq_lt_of_lt i j hij
    exact ⟨ki, kj, hki, hkj, hlt, strLt_ne hlt⟩
  · intro i j hij
    obtain ⟨ki, kj, hki, hkj, hlt⟩ := atEndSeq_lt_of_lt i j hij
    exact ⟨ki, kj, hki, hkj, hlt, strLt_ne hlt⟩

/-- Witness for C8 at the first and the hundredth call (indices 0 and 99). -/
theorem atStart_atEnd_monotone_sequences_witness :
    (0 : Nat) < 99 ∧
    (∃ ki kj, atStartSeq 0 = .ok ki ∧ atStartSeq 99 = .ok kj ∧
      strLt kj ki = true ∧ kj ≠ ki) ∧
    (∃ ki kj, atEndSeq 0 = .ok ki ∧ atEndSeq 99 = .ok kj ∧
      strLt ki kj = true ∧ ki ≠ kj) :=
  ⟨by decide, atStart_atEnd_monotone_sequences.1 0 99 (by decide),
    atStart_atEnd_monotone_sequences.2 0 99 (by decide)⟩

/-- C3: for every status s and list of records, `getSortedJobsForStatus s`
returns exactly the records whose status equals s (a permutation of the
filtered list), sorted along `jobLe`: ascending by order key under byte-wise
comparison, with equal order keys broken by createdAt descending. -/
theorem getSortedJobsForStatus_sorted :
    ∀ (s : JobStatus) (l : List Job),
      (getSortedJobsForStatus s l).Perm (l.filter (fun j => decide (j.status = s)))
      ∧ List.Sorted jobLe (getSortedJobsForStatus s l) := by
  intro s l
  constructor
  · exact List.perm_insertionSort jobLe _
  · haveI : IsTotal Job jobLe := ⟨jobLe_total⟩
    haveI : IsTrans Job jobLe := ⟨jobLe_trans⟩
    exact List.sorted_insertionSort jobLe _

theorem computeNewOrder_at_length :
    ∀ l : List Job, computeNewOrder l l.length = .ok (endOrderKey l) := by
  intro l
  cases l with
  | nil => rfl
  | cons j0 rest =>
    rw [computeNewOrder]
    simp [endOrderKey, calculateOrderAtEnd_some]

theorem getLast?_cons_getLastD (j0 : Job) (rest : List Job) :
    (j0 :: rest).getLast? = some (rest.getLastD j0) := by
  rw [List.getLast?_cons, List.getLastD_eq_getLast?]

theorem mem_columnJobsWithoutActive_ne :
    ∀ {x : Job} {jobId : Nat} {s : JobStatus} {jobs : List Job},
      x ∈ columnJobsWithoutActive jobId s jobs → x.id ≠ jobId := by
  intro x jobId s jobs hx
  have h := (List.mem_filter.mp hx).2
  simpa using h

theorem columnJobsWithoutActive_findIdx_self :
    ∀ (jobId : Nat) (s : JobStatus) (jobs : List Job),
      (columnJobsWithoutActive jobId s jobs).findIdx? (fun j => decide (j.id = jobId))
        = none := by
  intro jobId s jobs
  rw [List.findIdx?_eq_none_iff]
  intro x hx
  simpa using mem_columnJobsWithoutActive_ne hx

/-- C4: a drop whose target is a column identifier resolves targetStatus to
that column and positions the record at the end of the column: the new key
is `calculateOrderBetween none none` when the column (minus the dragged
record) is empty, and `calculateOrderAtEnd` of the last siblings key
otherwise; in particular a WISHLIST record dropped on an empty APPLIED
column gets status APPLIED and the generators both-null default key. -/
theorem calculateDropResult_column_target :
    (∀ (job : DraggedJob) (s : JobStatus) (jobs : List Job),
      calculateDropResult job (.column s) jobs
        = .ok (some { targetStatus := s,
                      newOrder := endOrderKey (columnJobsWithoutActive job.id s jobs),
                      statusChanged := decide (job.status ≠ s),
                      orderChanged :=
                        decide (job.order ≠ endOrderKey (columnJobsWithoutActive job.id s jobs)) }))
    ∧ (∀ l : List Job, l = [] → calculateOrderBetween none none = .ok (endOrderKey l))
    ∧ (∀ (l : List Job) (lastJob : Job), l.getLast? = some lastJob →
        calculateOrderAtEnd (some lastJob.order) = .ok (endOrderKey l))
    ∧ calculateDropResult c4job (.column .APPLIED) c4jobs
        = .ok (some { targetStatus := .APPLIED, newOrder := [36],
                      statusChanged := true, orderChanged := true })
    ∧ calculateOrderBetween none none = .ok [36] := by
  refine ⟨?_, ?_, ?_, ?_, rfl⟩
  · intro job s jobs
    show (computeNewOrder (columnJobsWithoutActive job.id s jobs)
        (columnJobsWithoutActive job.id s jobs).length).map _ = _
    rw [computeNewOrder_at_length]
    rfl
  · intro l h
    subst h
    rfl
  · intro l lastJob h
    cases l with
    | nil => simp at h
    | cons j0 rest =>
      rw [getLast?_cons_getLastD] at h
      rw [Option.some.injEq] at h
      subst h
      rfl
  · rfl

/-- Witness for C4: the empty-column arm of the end-of-column key, discharged
on the empty list. -/
theorem calculateDropResult_column_target_witness :
    ([] : List Job) = [] ∧ calculateOrderBetween none none = .ok (endOrderKey ([] : List Job)) :=
  ⟨rfl, calculateDropResult_column_target.2.1 [] rfl⟩

theorem resolveCardIndex_of_none {l : List Job} {o : Nat}
    (h : l.findIdx? (fun j => decide (j.id = o)) = none) :
    resolveCardIndex l o = l.length := by
  rw [resolveCardIndex, h]

theorem resolveCardIndex_of_some {l : List Job} {o i : Nat}
    (h : l.findIdx? (fun j => decide (j.id = o)) = some i) :
    resolveCardIndex l o = i := by
  rw [resolveCardIndex, h]

theorem resolveCardIndex_self (jobId : Nat) (s : JobStatus) (jobs : List Job) :
    resolveCardIndex (columnJobsWithoutActive jobId s jobs) jobId
      = (columnJobsWithoutActive jobId s jobs).length :=
  resolveCardIndex_of_none (columnJobsWithoutActive_findIdx_self jobId s jobs)

/-- C10: dropping a job onto its own card id yields a non-null result whose
targetStatus is the jobs current status and whose newOrder is the
end-of-column key (the generators both-null default when the job is alone
in its column, otherwise a key at the end of the remaining siblings):
because the dragged job is filtered out of the target column, the sibling
lookup fails and the resolver silently defaults to end-of-column instead of
returning the not-found result. -/
theorem calculateDropResult_self_drop :
    ∀ (job : DraggedJob) (jobs : List Job) (j0 : Job),
      jobs.find? (fun j => decide (j.id = job.id)) = some j0 →
      j0.status = job.status →
      calculateDropResult job (.card job.id) jobs
        = .ok (some { targetStatus := job.status,
                      newOrder := endOrderKey (columnJobsWithoutActive job.id job.status jobs),
                      statusChanged := false,
                      orderChanged :=
                        decide (job.order ≠ endOrderKey (columnJobsWithoutActive job.id job.status jobs)) })
      ∧ (columnJobsWithoutActive job.id job.status jobs = [] →
          calculateOrderBetween none none
            = .ok (endOrderKey (columnJobsWithoutActive job.id job.status jobs)))
      ∧ (∀ lastJob : Job,
          (columnJobsWithoutActive job.id job.status jobs).getLast? = some lastJob →
          calculateOrderAtEnd (some lastJob.order)
            = .ok (endOrderKey (columnJobsWithoutActive job.id job.status jobs))) := by
  intro job jobs j0 hfind hstatus
  refine ⟨?_, ?_, ?_⟩
  · rw [calculateDropResult, hfind]
    simp only [hstatus, resolveCardIndex_self, computeNewOrder_at_length, Except.map]
    simp
  · intro h
    rw [h]
    rfl
  · intro lastJob h
    cases hl : columnJobsWithoutActive job.id job.status jobs with
    | nil => rw [hl] at h; simp at h
    | cons y ys =>
      rw [hl, getLast?_cons_getLastD] at h
      rw [Option.some.injEq] at h
      subst h
      rfl

/-- Witness for C10: a two-record APPLIED column, record id 1 dropped on its
own card. -/
theorem calculateDropResult_self_drop_witness :
    c10jobs.find? (fun j => decide (j.id = c10job.id))
        = some { id := 1, status := .APPLIED, order := [36], createdAt := 9 }
    ∧ calculateDropResult c10job (.card c10job.id) c10jobs
        = .ok (some { targetStatus := c10job.status,
                      newOrder := endOrderKey (columnJobsWithoutActive c10job.id c10job.status c10jobs),
                      statusChanged := false,
                      orderChanged :=
                        decide (c10job.order ≠ endOrderKey (columnJobsWithoutActive c10job.id c10job.status c10jobs)) }) :=
  ⟨by decide,
    (calculateDropResult_self_drop c10job c10jobs
      { id := 1, status := .APPLIED, order := [36], createdAt := 9 } (by decide) rfl).1⟩

theorem computeNewOrder_lt_of_found :
    ∀ (l : List Job) (i : Nat) (sib : Job) (k : Key),
      l[i]? = some sib → computeNewOrder l i = .ok k → strLt k sib.order = true := by
  intro l i sib k hget hcn
  cases l with
  | nil => simp at hget
  | cons j0 rest =>
    by_cases hi : i = 0
    · subst hi
      have hsib : j0 = sib := by simpa using hget
      subst hsib
      rw [computeNewOrder, if_pos rfl] at hcn
      by_cases ho : j0.order = []
      · rw [calculateOrderAtStart, generateKeyBetween, if_pos ho] at hcn
        simp at hcn
      · rw [calculateOrderAtStart, generateKeyBetween, if_neg ho] at hcn
        rw [Except.ok.injEq] at hcn
        subst hcn
        exact keyBelow_lt j0.order ho
    · by_cases hle : (j0 :: rest).length ≤ i
      · rw [List.getElem?_eq_none hle] at hget
        simp at hget
      · rw [computeNewOrder, if_neg hi, if_neg hle] at hcn
        have hsib2 : (j0 :: rest).getD i j0 = sib := by
          rw [List.getD_eq_getElem?_getD, hget]
          rfl
        rw [hsib2] at hcn
        by_cases hbt : strLt ((j0 :: rest).getD (i - 1) j0).order sib.order = true
        · rw [if_pos hbt] at hcn
          rw [calculateOrderBetween] at hcn
          exact (generateKeyBetween_ok_between hcn).2
        · rw [if_neg hbt] at hcn
          by_cases ho : sib.order = []
          · rw [calculateOrderAtStart, generateKeyBetween, if_pos ho] at hcn
            simp at hcn
          · rw [calculateOrderAtStart, generateKeyBetween, if_neg ho] at hcn
            rw [Except.ok.injEq] at hcn
            subst hcn
            exact keyBelow_lt sib.order ho

/-- C2 counterexample: a within-column drop of the record with key [40] onto
the later sibling with key [50] (the dragged records original position
precedes the siblings, so the claimed rule demands insertion after the
sibling, i.e. a key sorting after [50]); the code instead produces the key
[43], which sorts strictly before the sibling. -/
theorem calculateDropResult_direction_rule_counterexample :
    calculateDropResult c2job (.card 3) c2jobs
      = .ok (some { targetStatus := .WISHLIST, newOrder := [43],
                    statusChanged := false, orderChanged := true })
    ∧ strLt ([43] : Key) [50] = true
    ∧ strLt ([50] : Key) [43] = false :=
  ⟨rfl, rfl, rfl⟩

/-- C2 amended: for every drop onto a sibling card resolved by
`calculateDropResult`, within-column and cross-column alike, the record is
inserted immediately before the sibling (the new key sorts strictly before
the siblings key), with no direction rule and no exception for the sibling
being the last element of its column; when the sibling is absent from the
column with the dragged record excluded (for example when it is the dragged
card itself), the record is inserted at the end of that column. -/
theorem calculateDropResult_card_inserts_before :
    ∀ (job : DraggedJob) (overJobId : Nat) (jobs : List Job) (r : DropResult),
      calculateDropResult job (.card overJobId) jobs = .ok (some r) →
      (∀ (i : Nat) (sib : Job),
          (columnJobsWithoutActive job.id r.targetStatus jobs).findIdx?
              (fun j => decide (j.id = overJobId)) = some i →
          (columnJobsWithoutActive job.id r.targetStatus jobs)[i]? = some sib →
          strLt r.newOrder sib.order = true)
      ∧ ((columnJobsWithoutActive job.id r.targetStatus jobs).findIdx?
              (fun j => decide (j.id = overJobId)) = none →
          r.newOrder = endOrderKey (columnJobsWithoutActive job.id r.targetStatus jobs)) := by
  intro job overJobId jobs r hr
  rw [calculateDropResult] at hr
  cases hfind : jobs.find? (fun j => decide (j.id = overJobId)) with
  | none =>
    rw [hfind] at hr
    simp at hr
  | some overJob =>
    rw [hfind] at hr
    have hr2 : (computeNewOrder (columnJobsWithoutActive job.id overJob.status jobs)
        (resolveCardIndex (columnJobsWithoutActive job.id overJob.status jobs) overJobId)).map
        (fun newOrder =>
          some { targetStatus := overJob.status, newOrder := newOrder,
                 statusChanged := decide (job.status ≠ overJob.status),
                 orderChanged := decide (job.order ≠ newOrder) })
        = Except.ok (some r) := hr
    cases hcn : computeNewOrder (columnJobsWithoutActive job.id overJob.status jobs)
        (resolveCardIndex (columnJobsWithoutActive job.id overJob.status jobs) overJobId) with
    | error e =>
      rw [hcn] at hr2
      simp [Except.map] at hr2
    | ok k =>
      rw [hcn] at hr2
      simp only [Except.map, Except.ok.injEq, Option.some.injEq] at hr2
      subst hr2
      constructor
      · intro i sib hidx hget
        rw [resolveCardIndex_of_some hidx] at hcn
        exact computeNewOrder_lt_of_found _ i sib k hget hcn
      · intro hidx
        rw [resolveCardIndex_of_none hidx, computeNewOrder_at_length] at hcn
        rw [Except.ok.injEq] at hcn
        exact hcn.symm

/-- Witness for C2 amended: the cross-column drop of a WISHLIST record onto
the last APPLIED card (key [37, 5]); the resolution succeeds and the
produced key sorts strictly before the sibling. -/
theorem calculateDropResult_card_inserts_before_witness :
    calculateDropResult c9job (.card 3) c9jobs
      = .ok (some { targetStatus := .APPLIED, newOrder := [37, 2],
                    statusChanged := true, orderChanged := true })
    ∧ strLt ([37, 2] : Key) ([37, 5] : Key) = true :=
  ⟨rfl,
    (calculateDropResult_card_inserts_before c9job 3 c9jobs
        { targetStatus := .APPLIED, newOrder := [37, 2],
          statusChanged := true, orderChanged := true } rfl).1 1
      { id := 3, status := .APPLIED, order := [37, 5], createdAt := 4 }
      (by decide) (by decide)⟩

/-- C5: evaluating the resolver at the failing input.  Record id 1 (key [37],
WISHLIST) is dropped onto its own card while sitting between siblings with
keys [36] and [38]: the claim demands statusChanged = false and
orderChanged = false, but the code filters the dragged record out of the
column, fails to find the drop target, defaults to end-of-column and
produces the fresh key [39], so orderChanged = true and the record moves to
the end of its column. -/
theorem calculateDropResult_self_drop_not_noop :
    calculateDropResult c5job (.card 1) c5jobs
      = .ok (some { targetStatus := .WISHLIST, newOrder := [39],
                    statusChanged := false, orderChanged := true })
    ∧ strLt ([38] : Key) [39] = true :=
  ⟨rfl, rfl⟩

/-- C6: two adjacent siblings of the target column both carry the degenerate
legacy key 0 (digit list [0]); resolving an insert between them does not
throw (the result is an ok value, the inverted-bounds guard fails and the
atStart fallback is taken) and produces a key that sorts strictly before
[0] under byte-wise comparison. -/
theorem calculateDropResult_degenerate_keys :
    calculateDropResult c6job (.card 3) c6jobs
      = .ok (some { targetStatus := .WISHLIST, newOrder := [],
                    statusChanged := true, orderChanged := true })
    ∧ strLt ([0] : Key) [0] = false
    ∧ calculateOrderAtStart (some ([0] : Key)) = .ok []
    ∧ strLt ([] : Key) [0] = true :=
  ⟨rfl, rfl, rfl, rfl⟩

/-- C9: the APPLIED column holds exactly the keys b0 and b5 (digit lists
[37, 0] and [37, 5], in that sorted order); dropping a WISHLIST record
directly on the card with key b5 inserts it before that card, with target
status APPLIED and a new key strictly between b0 and b5 under byte-wise
comparison. -/
theorem calculateDropResult_between_b0_b5 :
    calculateDropResult c9job (.card 3) c9jobs
      = .ok (some { targetStatus := .APPLIED, newOrder := [37, 2],
                    statusChanged := true, orderChanged := true })
    ∧ strLt ([37, 0] : Key) ([37, 2] : Key) = true
    ∧ strLt ([37, 2] : Key) ([37, 5] : Key) = true :=
  ⟨rfl, rfl, rfl⟩

theorem commitDrag_failed_jobs_eq :
    ∀ (jobs : List Job) (jobId : Nat) (t : JobStatus) (n : Key)
      (os : JobStatus) (oo : Key),
      (commitDrag jobs jobId t n os oo false).jobs
        = jobs.map (fun j =>
            if j.id = jobId then { j with status := os, order := oo } else j) := by
  intro jobs jobId t n os oo
  rw [commitDrag]
  simp only [Bool.false_eq_true, if_neg, List.map_map]
  apply List.map_congr_left
  intro j _
  by_cases hid : j.id = jobId
  · simp [Function.comp, hid]
  · simp [Function.comp, hid]

/-- C7: when the persistence request of a committed drag fails, the commit
phase restores the moved records status and order key to exactly the
pre-gesture snapshot values passed in as the original values, leaves every
other record unchanged (the final list is the point-wise restore of the
input list, and equals the input list exactly when the input still holds
the snapshot values for the moved record), shows the user-visible failure
notice, and issues exactly one persistence attempt with no automatic
retry. -/
theorem commitDrag_failed_persist_rollback :
    (∀ (jobs : List Job) (jobId : Nat) (t : JobStatus) (n : Key)
        (os : JobStatus) (oo : Key),
      (commitDrag jobs jobId t n os oo false).jobs
          = jobs.map (fun j =>
              if j.id = jobId then { j with status := os, order := oo } else j)
        ∧ (commitDrag jobs jobId t n os oo false).persistAttempts = 1
        ∧ (commitDrag jobs jobId t n os oo false).failureNoticeShown = true)
    ∧ (∀ (jobs : List Job) (jobId : Nat) (t : JobStatus) (n : Key)
        (os : JobStatus) (oo : Key),
      (∀ j ∈ jobs, j.id = jobId → j.status = os ∧ j.order = oo) →
      (commitDrag jobs jobId t n os oo false).jobs = jobs) := by
  constructor
  · intro jobs jobId t n os oo
    exact ⟨commitDrag_failed_jobs_eq jobs jobId t n os oo, rfl, rfl⟩
  · intro jobs jobId t n os oo h
    rw [commitDrag_failed_jobs_eq]
    have : ∀ j ∈ jobs, (if j.id = jobId then { j with status := os, order := oo } else j) = j := by
      intro j hj
      by_cases hid : j.id = jobId
      · obtain ⟨h1, h2⟩ := h j hj hid
        rw [if_pos hid]
        cases j
        simp only at h1 h2
        simp [h1, h2]
      · rw [if_neg hid]
    rw [List.map_congr_left this]
    exact List.map_id jobs

/-- Witness for C7: a failed persist after moving record id 1 from WISHLIST
(key [36]) to APPLIED (key [40]) restores the original two-record board. -/
theorem commitDrag_failed_persist_rollback_witness :
    (∀ j ∈ c7jobs, j.id = 1 → j.status = JobStatus.WISHLIST ∧ j.order = [36])
    ∧ (commitDrag c7jobs 1 .APPLIED [40] .WISHLIST [36] false).jobs = c7jobs :=
  ⟨by decide,
    commitDrag_failed_persist_rollback.2 c7jobs 1 .APPLIED [40] .WISHLIST [36] (by decide)⟩

end GetAJob
